import Mathlib

/-!
# Service worker `sw.js` of SonusConcensus

A shallow embedding of the event handlers of `src/sw.js` (install, activate,
fetch, push) together with the part of the browser platform they call
(`fetch`, `caches.open/match/keys/delete`, `cache.addAll`, `cache.put`,
`skipWaiting`, `clients.claim`, `showNotification`).

Modelling conventions
* A promise is a state transformer on a `World` that settles either
  fulfilled with a value or rejected with a reason (`Task`). `.then` and
  `.catch` are `Task.andThen` and `Task.orElse`. Handlers are transcribed
  callback by callback.
* The world holds the cache storage (buckets in creation order, entries in
  insertion order), the trace of observable platform calls, and the work
  that a handler started without waiting for it (`pending`).
* A request carries its URL, method and mode. URL strings are http(s) URLs
  and stand for their resolved form; a cache key matches a GET request when
  the two URL strings are equal, and nothing matches a request of another
  method.
* The network is a function from URL to the outcome of fetching it.
* Other events are handled while a handler waits for the network; what they
  do to the cache storage meanwhile is the parameter `during` of
  `fetchDuring` and `fetchHandlerWith`.
-/

namespace ServiceWorker

/-! ## Constants of `sw.js` (lines 2-16) -/

def CACHE_NAME : String := "sonus-concensus-v2"

def OFFLINE_URL : String := "/offline.html"

def PRECACHE_ASSETS : List String :=
  [ "/",
    "/index.html",
    "/videos.html",
    "/music.html",
    "/offline.html",
    "https://fonts.googleapis.com/css2?family=Playfair+Display:ital@0;1&family=Inter:wght@300;400&display=swap",
    "https://cdn.jsdelivr.net/npm/@supabase/supabase-js@2" ]

/-! ## Data model -/

/-- The fields of a `Request` that the worker reads. -/
structure Request where
  url : String
  method : String
  mode : String
  deriving DecidableEq, Repr

/-- The fields of a `Response` that the worker reads, its body, and the field
values of its `Vary` header, which the cache reads. -/
structure Response where
  status : Nat
  type : String
  body : String
  vary : List String
  deriving DecidableEq, Repr

/-- One cache entry: the key (request URL) and the stored response. -/
abbrev Entry := String × Response

/-- A named cache bucket. -/
structure Bucket where
  name : String
  entries : List Entry
  deriving DecidableEq, Repr

/-- What the promise returned by the platform `fetch` settles to. A fulfilled
fetch carries the value the callback receives; `none` is a missing value, the
case the handler tests with `!response`. -/
inductive FetchOutcome where
  | rejected
  | resolved (response : Option Response)
  deriving DecidableEq, Repr

/-- The network: the outcome of fetching each URL. -/
abbrev Network := String → FetchOutcome

/-- The notification action descriptors of the push handler. -/
structure NotificationAction where
  action : String
  title : String
  icon : String
  deriving DecidableEq, Repr

/-- The `data` member of the notification options. -/
structure NotificationData where
  dateOfArrival : Nat
  primaryKey : String
  deriving DecidableEq, Repr

/-- The `options` object built by the push handler (lines 119-140). -/
structure NotificationOptions where
  body : String
  icon : String
  badge : String
  vibrate : List Nat
  data : NotificationData
  actions : List NotificationAction
  deriving DecidableEq, Repr

/-- Observable platform calls, in the order they happen. -/
inductive Effect where
  | log (msg : String)
  | fetch (url : String)
  | skipWaiting
  | clientsClaim
  | showNotification (title : String) (options : NotificationOptions)
  deriving DecidableEq, Repr

/-- Work started by a handler and not awaited:
`caches.open(cacheName).then(cache => { cache.put(request, response); })`. -/
structure Deferred where
  cacheName : String
  request : Request
  response : Response
  deriving DecidableEq, Repr

/-- The state a handler runs against. -/
structure World where
  caches : List Bucket
  trace : List Effect
  pending : List Deferred
  deriving DecidableEq, Repr

/-- A world with no bucket, no effect and no pending work. -/
def World.empty : World := ⟨[], [], []⟩

/-- How a promise settles. -/
inductive Settled (α : Type) where
  | fulfilled (value : α)
  | rejected (reason : String)
  deriving DecidableEq, Repr

/-- A promise: running it settles it and changes the world. -/
abbrev Task (α : Type) := World → Settled α × World

/-- A promise already fulfilled with `a`. -/
def Task.resolve {α : Type} (a : α) : Task α := fun w => (.fulfilled a, w)

/-- The `.then(f)` of a promise: `f` runs on fulfilment, a rejection passes through. -/
def Task.andThen {α β : Type} (p : Task α) (f : α → Task β) : Task β := fun w =>
  match p w with
  | (.fulfilled a, w1) => f a w1
  | (.rejected e, w1) => (.rejected e, w1)

/-- The `.catch(h)` of a promise: `h` runs on rejection, a fulfilment passes through. -/
def Task.orElse {α : Type} (p : Task α) (h : String → Task α) : Task α := fun w =>
  match p w with
  | (.fulfilled a, w1) => (.fulfilled a, w1)
  | (.rejected e, w1) => h e w1

/-! ## Platform primitives -/

/-- The call `console.log(msg)`. -/
def consoleLog (msg : String) : Task Unit := fun w =>
  (.fulfilled (), { w with trace := w.trace ++ [Effect.log msg] })

/-- The call `self.skipWaiting()`. -/
def skipWaiting : Task Unit := fun w =>
  (.fulfilled (), { w with trace := w.trace ++ [Effect.skipWaiting] })

/-- The call `self.clients.claim()`. -/
def clientsClaim : Task Unit := fun w =>
  (.fulfilled (), { w with trace := w.trace ++ [Effect.clientsClaim] })

/-- The platform `fetch(request)` seen from the callbacks that wait for it: one
network attempt, recorded in the trace; by the time it settles, the other
events handled meanwhile have done `during` to the cache storage. -/
def fetchDuring (during : List Bucket → List Bucket) (net : Network) (url : String) :
    Task (Option Response) := fun w =>
  let w1 := { w with trace := w.trace ++ [Effect.fetch url], caches := during w.caches }
  match net url with
  | .resolved r => (.fulfilled r, w1)
  | .rejected => (.rejected "TypeError: Failed to fetch", w1)

/-- First entry of a bucket whose key is `url`. -/
def matchEntries (url : String) : List Entry → Option Response
  | [] => none
  | (k, r) :: rest => if k = url then some r else matchEntries url rest

/-- First match over the buckets, in creation order. -/
def matchBuckets (url : String) : List Bucket → Option Response
  | [] => none
  | b :: rest =>
    match matchEntries url b.entries with
    | some r => some r
    | none => matchBuckets url rest

/-- The request the platform builds from a URL string argument: a GET request. -/
def Request.get (url : String) : Request := ⟨url, "GET", "cors"⟩

/-- The lookup behind `caches.match(request)`: a request whose method is not
GET matches nothing, a GET request matches by URL. -/
def matchRequest (request : Request) (bs : List Bucket) : Option Response :=
  if request.method = "GET" then matchBuckets request.url bs else none

/-- The call `caches.match(request)`: fulfils with the first matching response
of any bucket, or with `undefined` (`none`). -/
def cachesMatch (request : Request) : Task (Option Response) := fun w =>
  (.fulfilled (matchRequest request w.caches), w)

/-- The bucket list with an empty bucket `name` created at the end when none has that name. -/
def ensureBucket (name : String) (bs : List Bucket) : List Bucket :=
  if bs.any (fun b => b.name == name) then bs else bs ++ [⟨name, []⟩]

/-- The call `caches.open(name)`: creates the bucket when absent; the handle it
fulfils with is the bucket name. -/
def cachesOpen (name : String) : Task String := fun w =>
  (.fulfilled name, { w with caches := ensureBucket name w.caches })

/-- The call `caches.keys()`: the bucket names in creation order. -/
def cachesKeys : Task (List String) := fun w =>
  (.fulfilled (w.caches.map (fun b => b.name)), w)

/-- The call `caches.delete(name)`: removes the bucket, fulfils with whether it existed. -/
def cachesDelete (name : String) : Task Bool := fun w =>
  (.fulfilled (w.caches.any (fun b => b.name == name)),
    { w with caches := w.caches.filter (fun b => b.name != name) })

/-- The put of one entry: entries under the same key are removed, the new one is appended. -/
def putEntry (url : String) (r : Response) (entries : List Entry) : List Entry :=
  entries.filter (fun e => e.1 != url) ++ [(url, r)]

/-- Replace the entries of the bucket named `name`. -/
def setEntries (name : String) (f : List Entry → List Entry) (bs : List Bucket) : List Bucket :=
  bs.map (fun b => if b.name = name then { b with entries := f b.entries } else b)

/-- Entries of the bucket named `name` (empty when there is none). -/
def entriesOf (name : String) : List Bucket → List Entry
  | [] => []
  | b :: rest => if b.name = name then b.entries else entriesOf name rest

/-- The call `cache.put(request, response)` on the bucket `cache`: it rejects
with a `TypeError`, storing nothing, for a request whose method is not GET,
for a response of status 206 and for a response whose `Vary` header holds `*`;
otherwise it stores the entry. -/
def cachePut (cache : String) (request : Request) (r : Response) : Task Unit := fun w =>
  if request.method ≠ "GET" ∨ r.status = 206 ∨ "*" ∈ r.vary then (.rejected "TypeError", w)
  else (.fulfilled (), { w with caches := setEntries cache (putEntry request.url r) w.caches })

/-- A response `cache.addAll` accepts: the fetch fulfilled with a response whose
status is an ok status (200-299) other than 206 and whose `Vary` header does
not hold `*`. -/
def acceptable : FetchOutcome → Option Response
  | .resolved (some r) =>
    if 200 ≤ r.status ∧ r.status ≤ 299 ∧ r.status ≠ 206 ∧ "*" ∉ r.vary then some r else none
  | _ => none

/-- The responses for all of `urls`, or `none` as soon as one is not acceptable. -/
def fetchAll (net : Network) : List String → Option (List Entry)
  | [] => some []
  | u :: rest =>
    match acceptable (net u), fetchAll net rest with
    | some r, some es => some ((u, r) :: es)
    | _, _ => none

/-- The batch of puts of `cache.addAll`: each operation replaces the entries
under its key, and an operation whose key was already written by this same
batch aborts the batch. -/
def batchPut : List Entry → List String → List Entry → Option (List Entry)
  | [], _, entries => some entries
  | (u, r) :: ops, added, entries =>
    if u ∈ added then none else batchPut ops (u :: added) (putEntry u r entries)

/-- The call `cache.addAll(urls)` on the bucket `cache`: every URL is fetched;
when every response is acceptable and the batch of puts goes through, the
bucket receives all of them; otherwise the promise rejects and the bucket is
left as it was. This is the behaviour the Cache interface of the Service
Workers standard gives `addAll`: the puts are only made once all the responses
have arrived, and a failed batch is rolled back. -/
def cacheAddAll (net : Network) (cache : String) (urls : List String) : Task Unit := fun w =>
  let w1 := { w with trace := w.trace ++ urls.map Effect.fetch }
  match fetchAll net urls with
  | none => (.rejected "TypeError", w1)
  | some ops =>
    match batchPut ops [] (entriesOf cache w1.caches) with
    | none => (.rejected "InvalidStateError", w1)
    | some es => (.fulfilled (), { w1 with caches := setEntries cache (fun _ => es) w1.caches })

/-! ## Install handler (lines 19-31) -/

/-- The promise the install handler passes to `event.waitUntil`, for a given
precache manifest. -/
def installWith (manifest : List String) (net : Network) : Task Unit :=
  ((cachesOpen CACHE_NAME).andThen (fun cache =>
      (consoleLog "Service Worker: Caching files").andThen (fun _ =>
        (cacheAddAll net cache manifest).orElse (fun error =>
          consoleLog ("Failed to cache some assets: " ++ error))))).andThen
    (fun _ => skipWaiting)

/-- The install handler of `sw.js`. -/
def install (net : Network) : Task Unit := installWith PRECACHE_ASSETS net

/-- The world after `n` runs of the install handler. -/
def installTimes (manifest : List String) (net : Network) : Nat → World → World
  | 0, w => w
  | n + 1, w => installTimes manifest net n (installWith manifest net w).2

/-! ## Activate handler (lines 34-47) -/

/-- The callback mapped over the bucket names (lines 38-43): a bucket whose
name is not `CACHE_NAME` is logged and deleted, the current one is skipped. -/
def reapOne (cache : String) : Task Unit :=
  if cache ≠ CACHE_NAME then
    (consoleLog ("Service Worker: Clearing old cache: " ++ cache)).andThen (fun _ =>
      (cachesDelete cache).andThen (fun _ => Task.resolve ()))
  else Task.resolve ()

/-- The call `Promise.all(tasks)`: fulfils when every task has, rejects with the first rejection. -/
def promiseAll : List (Task Unit) → Task Unit
  | [] => Task.resolve ()
  | t :: ts => t.andThen (fun _ => promiseAll ts)

/-- The promise the activate handler passes to `event.waitUntil`. -/
def activate : Task Unit :=
  (cachesKeys.andThen (fun cacheNames => promiseAll (cacheNames.map reapOne))).andThen
    (fun _ => clientsClaim)

/-! ## Fetch handler (lines 50-108) -/

/-- Whether `needle` is an initial segment of the characters `hay`. -/
def startsWithChars : List Char → List Char → Bool
  | _, [] => true
  | [], _ :: _ => false
  | c :: cs, d :: ds => c == d && startsWithChars cs ds

/-- Whether `needle` occurs in `hay` as a contiguous run. -/
def includesChars : List Char → List Char → Bool
  | [], needle => needle.isEmpty
  | c :: cs, needle => startsWithChars (c :: cs) needle || includesChars cs needle

/-- The method `String.prototype.includes`. -/
def includes (s sub : String) : Bool := includesChars s.data sub.data

/-- The condition of lines 52-57: the URL contains one of the four substrings. -/
def isExternal (url : String) : Bool :=
  includes url "supabase.co" ||
  includes url "youtube.com" ||
  includes url "googleapis.com" ||
  includes url "gstatic.com"

/-- Start a `cache.put` in bucket `cacheName` without waiting for it (lines 90-93). -/
def defer (d : Deferred) : Task Unit := fun w =>
  (.fulfilled (), { w with pending := w.pending ++ [d] })

/-- The promise the fetch handler passes to `event.respondWith`, with `during`
what other events do to the cache storage while the handler waits for the
network. -/
def fetchHandlerWith (during : List Bucket → List Bucket) (net : Network) (request : Request) :
    Task (Option Response) :=
  if isExternal request.url then
    (fetchDuring during net request.url).orElse (fun _ => cachesMatch request)
  else
    (cachesMatch request).andThen (fun cachedResponse =>
      match cachedResponse with
      | some cached => Task.resolve (some cached)
      | none =>
        ((fetchDuring during net request.url).andThen (fun response =>
          match response with
          | none => Task.resolve none
          | some r =>
            if r.status ≠ 200 ∨ r.type ≠ "basic" then Task.resolve (some r)
            else
              (defer ⟨CACHE_NAME, request, r⟩).andThen (fun _ => Task.resolve (some r)))).orElse
          (fun _ =>
            if request.mode = "navigate" then cachesMatch (Request.get OFFLINE_URL)
            else cachesMatch request))

/-- The fetch handler run with no other event changing the cache storage meanwhile. -/
def fetchHandler (net : Network) (request : Request) : Task (Option Response) :=
  fetchHandlerWith id net request

/-- The deferred work itself: open the bucket, then put the entry. It settles
as the put does; the handler does not observe it. -/
def runDeferred (d : Deferred) : Task Unit :=
  (cachesOpen d.cacheName).andThen (fun cache => cachePut cache d.request d.response)

/-- What the page that issued the request receives. -/
inductive PageResult where
  | response (r : Response)
  | networkError
  deriving DecidableEq, Repr

/-- The platform side of `event.respondWith(p)`: a promise fulfilled with a
response delivers it; one fulfilled with `undefined`, or rejected, is a
network error for the page. -/
def respondWith : Settled (Option Response) → PageResult
  | .fulfilled (some r) => .response r
  | .fulfilled none => .networkError
  | .rejected _ => .networkError

/-! ## Push handler (lines 118-145) -/

/-- The expression `event.data?.text() || dflt`: the payload text when there is
a payload and its text is truthy (non-empty), else `dflt`. -/
def textOrDefault (data : Option String) (dflt : String) : String :=
  match data with
  | none => dflt
  | some text => if text = "" then dflt else text

/-- The `options` object of lines 119-140; `now` is the value of `Date.now()`. -/
def pushOptions (now : Nat) (data : Option String) : NotificationOptions where
  body := textOrDefault data "New content available"
  icon := "/icons/icon-192x192.png"
  badge := "/icons/icon-72x72.png"
  vibrate := [100, 50, 100]
  data := ⟨now, "1"⟩
  actions :=
    [ ⟨"explore", "Explore", "/icons/icon-72x72.png"⟩,
      ⟨"close", "Close", "/icons/icon-72x72.png"⟩ ]

/-- The call `self.registration.showNotification(title, options)`. -/
def showNotification (title : String) (options : NotificationOptions) : Task Unit := fun w =>
  (.fulfilled (), { w with trace := w.trace ++ [Effect.showNotification title options] })

/-- The promise the push handler passes to `event.waitUntil`; `data` is the
text of the push payload, `none` when `event.data` is null. -/
def push (now : Nat) (data : Option String) : Task Unit :=
  showNotification "Sonus Concensus" (pushOptions now data)

/-! ## Values used in the examples -/

/-- A same-origin `200` response with the given body. -/
def okResponse (body : String) : Response := ⟨200, "basic", body, []⟩

/-- A network on which only `/a` can be fetched. -/
def onlyA : Network := fun u =>
  if u = "/a" then .resolved (some (okResponse "A")) else .rejected

/-- A network on which every fetch fails. -/
def offline : Network := fun _ => .rejected

/-- A network that answers every URL with the same outcome. -/
def always (o : FetchOutcome) : Network := fun _ => o

/-- The entries a bucket would hold with one entry per manifest URL whose
fetch gave an acceptable response. -/
def fetched (net : Network) (manifest : List String) : List Entry :=
  manifest.filterMap (fun u => (acceptable (net u)).map (fun r => (u, r)))

/-- A world whose current bucket holds an old copy of `/index.html`. -/
def cachedIndex : World :=
  ⟨[⟨CACHE_NAME, [("/index.html", okResponse "old")]⟩], [], []⟩

/-- A world whose current bucket holds the offline document only. -/
def cachedOffline : World :=
  ⟨[⟨CACHE_NAME, [(OFFLINE_URL, okResponse "offline page")]⟩], [], []⟩

/-- A world with a stale copy of a font stylesheet in an old bucket. -/
def cachedFont : World :=
  ⟨[⟨"sonus-concensus-v1", [("https://fonts.gstatic.com/f.woff2", okResponse "stale")]⟩], [], []⟩

/-- A network on which the site itself answers and every `https://` URL of
another host is unreachable. -/
def cdnDown : Network := fun u =>
  if includes u "https://" then .rejected else .resolved (some (okResponse u))

/-- What the background write of another fetch event for `/app.js` does to the
cache storage. -/
def concurrentPut (bs : List Bucket) : List Bucket :=
  setEntries CACHE_NAME (putEntry "/app.js" (okResponse "js")) (ensureBucket CACHE_NAME bs)

/-! ## Fetch handler: theorems -/

/-- C4. A request that is not external and has a matching cache entry is
answered with exactly that entry; the world is left as it was: no network
fetch is recorded, the cache storage is unchanged and no write is started,
whatever the network would answer. -/
theorem fetch_cache_hit (net : Network) (request : Request) (w : World) (cached : Response)
    (hext : isExternal request.url = false)
    (hhit : matchRequest request w.caches = some cached) :
    fetchHandler net request w = (.fulfilled (some cached), w) ∧
      respondWith (fetchHandler net request w).1 = .response cached := by
  have h : fetchHandler net request w = (.fulfilled (some cached), w) := by
    simp [fetchHandler, fetchHandlerWith, hext, Task.andThen, cachesMatch, hhit, Task.resolve]
  exact ⟨h, by rw [h]; rfl⟩

/-- Instance of C4: `/index.html` is cached and the network has a newer copy. -/
theorem fetch_cache_hit_witness :
    fetchHandler (always (.resolved (some (okResponse "new")))) ⟨"/index.html", "GET", "navigate"⟩
        cachedIndex = (.fulfilled (some (okResponse "old")), cachedIndex) ∧
      respondWith (fetchHandler (always (.resolved (some (okResponse "new"))))
        ⟨"/index.html", "GET", "navigate"⟩ cachedIndex).1 = .response (okResponse "old") :=
  fetch_cache_hit (always (.resolved (some (okResponse "new")))) ⟨"/index.html", "GET", "navigate"⟩
    cachedIndex (okResponse "old") (by decide) (by decide)

/-- C5. For a request that is not external and not cached, when the network
fetch fulfils with a missing response, or one whose status is not 200, or one
whose type is not `basic`, the handler fulfils with that same value; the only
change to the world is the recorded fetch: the cache storage is unchanged and
no write is started. -/
theorem fetch_not_cacheable (net : Network) (request : Request) (w : World)
    (response : Option Response)
    (hext : isExternal request.url = false)
    (hmiss : matchRequest request w.caches = none)
    (hnet : net request.url = .resolved response)
    (hbad : ∀ r, response = some r → r.status ≠ 200 ∨ r.type ≠ "basic") :
    fetchHandler net request w =
      (.fulfilled response, { w with trace := w.trace ++ [Effect.fetch request.url] }) := by
  cases response with
  | none =>
    simp [fetchHandler, fetchHandlerWith, hext, Task.andThen, Task.orElse, cachesMatch, hmiss,
      fetchDuring, hnet, Task.resolve]
  | some r =>
    have hr := hbad r rfl
    simp [fetchHandler, fetchHandlerWith, hext, Task.andThen, Task.orElse, cachesMatch, hmiss,
      fetchDuring, hnet, Task.resolve, hr]

/-- Instance of C5: a same-origin 404 for `/missing.css` with an empty cache storage. -/
theorem fetch_not_cacheable_witness :
    fetchHandler (always (.resolved (some ⟨404, "basic", "not found", []⟩)))
        ⟨"/missing.css", "GET", "no-cors"⟩ World.empty =
      (.fulfilled (some ⟨404, "basic", "not found", []⟩),
        { World.empty with trace := World.empty.trace ++ [Effect.fetch "/missing.css"] }) :=
  fetch_not_cacheable (always (.resolved (some ⟨404, "basic", "not found", []⟩)))
    ⟨"/missing.css", "GET", "no-cors"⟩ World.empty (some ⟨404, "basic", "not found", []⟩)
    (by decide) (by decide) (by decide)
    (by intro r hr; cases hr; exact Or.inl (by decide))

/-- C8. For an external request whose network fetch fulfils, the handler
fulfils with exactly the network value, even when the cache storage holds a
matching entry; the only change to the world is the recorded fetch: nothing is
written to the cache storage and no write is started. -/
theorem fetch_external_network (net : Network) (request : Request) (w : World)
    (response : Option Response)
    (hext : isExternal request.url = true)
    (hnet : net request.url = .resolved response) :
    fetchHandler net request w =
      (.fulfilled response, { w with trace := w.trace ++ [Effect.fetch request.url] }) := by
  simp [fetchHandler, fetchHandlerWith, hext, Task.orElse, fetchDuring, hnet]

/-- Instance of C8: a font URL with a stale cached copy and a fresh network copy. -/
theorem fetch_external_network_witness :
    matchRequest ⟨"https://fonts.gstatic.com/f.woff2", "GET", "cors"⟩ cachedFont.caches
        = some (okResponse "stale") ∧
      fetchHandler (always (.resolved (some (okResponse "fresh"))))
          ⟨"https://fonts.gstatic.com/f.woff2", "GET", "cors"⟩ cachedFont =
        (.fulfilled (some (okResponse "fresh")),
          { cachedFont with
            trace := cachedFont.trace ++ [Effect.fetch "https://fonts.gstatic.com/f.woff2"] }) :=
  ⟨by decide,
    fetch_external_network (always (.resolved (some (okResponse "fresh"))))
      ⟨"https://fonts.gstatic.com/f.woff2", "GET", "cors"⟩ cachedFont (some (okResponse "fresh"))
      (by decide) (by decide)⟩

/-- C9. When the network fetch fails for a request that is external, or that
is not external, was not cached when the handler looked it up and is not a
navigation, the handler fulfils with the result of a cache lookup for the
request made after the failure, in the cache storage as the other events have
left it by then: the matching entry when there is one, which the page then
receives as its response, and otherwise `undefined`, which the page receives
as a network error and not as a response. The handler itself writes nothing. -/
theorem fetch_failure_fallback (during : List Bucket → List Bucket) (net : Network)
    (request : Request) (w : World)
    (hnet : net request.url = .rejected)
    (hkind : isExternal request.url = true ∨
      (isExternal request.url = false ∧ matchRequest request w.caches = none ∧
        request.mode ≠ "navigate")) :
    fetchHandlerWith during net request w =
        (.fulfilled (matchRequest request (during w.caches)),
          { w with trace := w.trace ++ [Effect.fetch request.url], caches := during w.caches }) ∧
      (∀ r, matchRequest request (during w.caches) = some r →
        respondWith (fetchHandlerWith during net request w).1 = .response r) ∧
      (matchRequest request (during w.caches) = none →
        respondWith (fetchHandlerWith during net request w).1 = .networkError) := by
  have h : fetchHandlerWith during net request w =
      (.fulfilled (matchRequest request (during w.caches)),
        { w with trace := w.trace ++ [Effect.fetch request.url], caches := during w.caches }) := by
    rcases hkind with hext | ⟨hext, hmiss, hmode⟩
    · simp [fetchHandlerWith, hext, Task.orElse, fetchDuring, hnet, cachesMatch]
    · simp [fetchHandlerWith, hext, Task.andThen, Task.orElse, cachesMatch, hmiss, fetchDuring,
        hnet, hmode]
  refine ⟨h, ?_, ?_⟩
  · intro r hr
    rw [h, hr]; rfl
  · intro hr
    rw [h, hr]; rfl

/-- Instances of C9 with the network down: an external font URL with a stale
copy cached; `/app.js`, not cached at first, that another event caches
meanwhile; `/app.js` with nothing cached throughout. -/
theorem fetch_failure_fallback_witness :
    respondWith (fetchHandlerWith id offline ⟨"https://fonts.gstatic.com/f.woff2", "GET", "cors"⟩
        cachedFont).1 = .response (okResponse "stale") ∧
      respondWith (fetchHandlerWith concurrentPut offline ⟨"/app.js", "GET", "no-cors"⟩
        World.empty).1 = .response (okResponse "js") ∧
      respondWith (fetchHandlerWith id offline ⟨"/app.js", "GET", "no-cors"⟩
        World.empty).1 = .networkError :=
  ⟨(fetch_failure_fallback id offline ⟨"https://fonts.gstatic.com/f.woff2", "GET", "cors"⟩
      cachedFont (by decide) (Or.inl (by decide))).2.1 (okResponse "stale") (by decide),
    (fetch_failure_fallback concurrentPut offline ⟨"/app.js", "GET", "no-cors"⟩ World.empty
      (by decide) (Or.inr ⟨by decide, by decide, by decide⟩)).2.1 (okResponse "js") (by decide),
    (fetch_failure_fallback id offline ⟨"/app.js", "GET", "no-cors"⟩ World.empty
      (by decide) (Or.inr ⟨by decide, by decide, by decide⟩)).2.2 (by decide)⟩

/-- C7 fails on the code. After an install with the manifest of `sw.js` while
the two CDN hosts are unreachable, the bucket `CACHE_NAME` is empty; a
navigation to `/page` whose network fetch then fails is not cached, the lookup
of `/offline.html` finds nothing, the handler fulfils with `undefined` and the
page receives a network error. The same happens from an empty cache storage. -/
theorem fetch_navigation_offline_not_cached :
    (install cdnDown World.empty).2.caches = [⟨CACHE_NAME, []⟩] ∧
      isExternal "/page" = false ∧
      offline "/page" = .rejected ∧
      matchRequest ⟨"/page", "GET", "navigate"⟩ (install cdnDown World.empty).2.caches = none ∧
      (fetchHandler offline ⟨"/page", "GET", "navigate"⟩ (install cdnDown World.empty).2).1
        = .fulfilled none ∧
      respondWith (fetchHandler offline ⟨"/page", "GET", "navigate"⟩
        (install cdnDown World.empty).2).1 = .networkError ∧
      respondWith (fetchHandler offline ⟨"/page", "GET", "navigate"⟩ World.empty).1
        = .networkError := by
  decide

/-- The path the handler takes when the offline document is cached: for a
navigation request that is not external and not cached and whose network
fetch fails, when the cache storage holds an entry for `/offline.html` the
handler fulfils with that entry and the page receives it as its response. -/
theorem fetch_navigation_offline_when_cached (net : Network) (request : Request) (w : World)
    (fallback : Response)
    (hext : isExternal request.url = false)
    (hmode : request.mode = "navigate")
    (hmiss : matchRequest request w.caches = none)
    (hnet : net request.url = .rejected)
    (hoff : matchBuckets OFFLINE_URL w.caches = some fallback) :
    fetchHandler net request w =
        (.fulfilled (some fallback), { w with trace := w.trace ++ [Effect.fetch request.url] }) ∧
      respondWith (fetchHandler net request w).1 = .response fallback := by
  have h : fetchHandler net request w =
      (.fulfilled (some fallback), { w with trace := w.trace ++ [Effect.fetch request.url] }) := by
    have hoff1 : matchRequest (Request.get OFFLINE_URL) w.caches = some fallback := by
      simp [matchRequest, Request.get, hoff]
    simp [fetchHandler, fetchHandlerWith, hext, Task.andThen, Task.orElse, cachesMatch, hmiss,
      fetchDuring, hnet, hmode, hoff1]
  exact ⟨h, by rw [h]; rfl⟩

/-- Instance: `/page` while only the offline document is cached. -/
theorem fetch_navigation_offline_when_cached_example :
    fetchHandler offline ⟨"/page", "GET", "navigate"⟩ cachedOffline =
        (.fulfilled (some (okResponse "offline page")),
          { cachedOffline with trace := cachedOffline.trace ++ [Effect.fetch "/page"] }) ∧
      respondWith (fetchHandler offline ⟨"/page", "GET", "navigate"⟩ cachedOffline).1
        = .response (okResponse "offline page") :=
  fetch_navigation_offline_when_cached offline ⟨"/page", "GET", "navigate"⟩ cachedOffline
    (okResponse "offline page") (by decide) (by decide) (by decide) (by decide) (by decide)

/-! ## Cache storage lemmas -/

theorem matchEntries_none_filter (url : String) (es : List Entry)
    (h : matchEntries url es = none) : es.filter (fun e => e.1 != url) = es := by
  induction es with
  | nil => rfl
  | cons e rest ih =>
    obtain ⟨k, r⟩ := e
    by_cases hk : k = url
    · simp [matchEntries, hk] at h
    · simp only [matchEntries, hk, if_false] at h
      simp [List.filter_cons, hk, ih h]

theorem putEntry_of_miss (url : String) (r : Response) (es : List Entry)
    (h : matchEntries url es = none) : putEntry url r es = es ++ [(url, r)] := by
  simp [putEntry, matchEntries_none_filter url es h]

theorem matchEntries_append_self (url : String) (r : Response) (es : List Entry)
    (h : matchEntries url es = none) : matchEntries url (es ++ [(url, r)]) = some r := by
  induction es with
  | nil => simp [matchEntries]
  | cons e rest ih =>
    obtain ⟨k, r1⟩ := e
    by_cases hk : k = url
    · simp [matchEntries, hk] at h
    · simp only [matchEntries, hk, if_false] at h
      simp [matchEntries, hk, ih h]

theorem matchEntries_append_other (url k : String) (r : Response) (es : List Entry)
    (hk : k ≠ url) : matchEntries k (es ++ [(url, r)]) = matchEntries k es := by
  induction es with
  | nil => simp [matchEntries, Ne.symm hk]
  | cons e rest ih =>
    obtain ⟨k1, r1⟩ := e
    by_cases h1 : k1 = k
    · simp [matchEntries, h1]
    · simp [matchEntries, h1, ih]

theorem matchEntries_entriesOf_none (url name : String) (bs : List Bucket)
    (h : matchBuckets url bs = none) : matchEntries url (entriesOf name bs) = none := by
  induction bs with
  | nil => rfl
  | cons b rest ih =>
    simp only [matchBuckets] at h
    cases hb : matchEntries url b.entries with
    | some r => simp [hb] at h
    | none =>
      simp only [hb] at h
      by_cases hn : b.name = name
      · simp [entriesOf, hn, hb]
      · simp [entriesOf, hn, ih h]

theorem entriesOf_append_empty (name other : String) (bs : List Bucket) :
    entriesOf name (bs ++ [⟨other, []⟩]) = entriesOf name bs := by
  induction bs with
  | nil => by_cases h : other = name <;> simp [entriesOf, h]
  | cons b rest ih => by_cases h : b.name = name <;> simp [entriesOf, h, ih]

theorem entriesOf_ensureBucket (name other : String) (bs : List Bucket) :
    entriesOf name (ensureBucket other bs) = entriesOf name bs := by
  unfold ensureBucket
  split
  · rfl
  · exact entriesOf_append_empty name other bs

theorem any_ensureBucket (name : String) (bs : List Bucket) :
    (ensureBucket name bs).any (fun b => b.name == name) = true := by
  unfold ensureBucket
  split
  · assumption
  · simp

theorem entriesOf_setEntries_ne (name cache : String) (f : List Entry → List Entry)
    (bs : List Bucket) (h : name ≠ cache) :
    entriesOf name (setEntries cache f bs) = entriesOf name bs := by
  induction bs with
  | nil => rfl
  | cons b rest ih =>
    simp only [setEntries, List.map_cons] at ih ⊢
    by_cases hb : b.name = cache
    · have hbn : b.name ≠ name := by rw [hb]; exact Ne.symm h
      simp [entriesOf, hb, hbn, Ne.symm h, ih]
    · by_cases hbn : b.name = name <;> simp [entriesOf, hb, hbn, ih, h]

theorem entriesOf_setEntries_self (cache : String) (f : List Entry → List Entry)
    (bs : List Bucket) (h : bs.any (fun b => b.name == cache) = true) :
    entriesOf cache (setEntries cache f bs) = f (entriesOf cache bs) := by
  induction bs with
  | nil => simp at h
  | cons b rest ih =>
    simp only [setEntries, List.map_cons] at ih ⊢
    by_cases hb : b.name = cache
    · simp [entriesOf, hb]
    · have hrest : rest.any (fun b => b.name == cache) = true := by
        simpa [hb] using h
      simp [entriesOf, hb, ih hrest]

theorem filter_setEntries_ne (cache : String) (f : List Entry → List Entry) (bs : List Bucket) :
    (setEntries cache f bs).filter (fun b => b.name != cache)
      = bs.filter (fun b => b.name != cache) := by
  induction bs with
  | nil => rfl
  | cons b rest ih =>
    simp only [setEntries, List.map_cons] at ih ⊢
    by_cases hb : b.name = cache
    · simp [List.filter_cons, hb, ih]
    · simp [List.filter_cons, hb, ih]

theorem filter_ensureBucket_ne (cache : String) (bs : List Bucket) :
    (ensureBucket cache bs).filter (fun b => b.name != cache)
      = bs.filter (fun b => b.name != cache) := by
  unfold ensureBucket
  split
  · rfl
  · simp

/-- C6 as stated fails. A POST to `/submit`, not external and not cached, is
answered 200 `basic`: the handler fulfils with the response and starts the
write, but `cache.put` rejects for a request that is not a GET and the bucket
`CACHE_NAME` holds nothing afterwards. The same happens for a GET of `/v`
answered 200 `basic` with `Vary: *`. -/
theorem fetch_populates_cache_counterexample :
    (isExternal "/submit" = false ∧
      matchRequest ⟨"/submit", "POST", "cors"⟩ World.empty.caches = none ∧
      (fetchHandler (always (.resolved (some (okResponse "done")))) ⟨"/submit", "POST", "cors"⟩
        World.empty).1 = .fulfilled (some (okResponse "done")) ∧
      (fetchHandler (always (.resolved (some (okResponse "done")))) ⟨"/submit", "POST", "cors"⟩
        World.empty).2.pending = [⟨CACHE_NAME, ⟨"/submit", "POST", "cors"⟩, okResponse "done"⟩] ∧
      (runDeferred ⟨CACHE_NAME, ⟨"/submit", "POST", "cors"⟩, okResponse "done"⟩
        (fetchHandler (always (.resolved (some (okResponse "done"))))
          ⟨"/submit", "POST", "cors"⟩ World.empty).2).1 = .rejected "TypeError" ∧
      entriesOf CACHE_NAME
        (runDeferred ⟨CACHE_NAME, ⟨"/submit", "POST", "cors"⟩, okResponse "done"⟩
          (fetchHandler (always (.resolved (some (okResponse "done"))))
            ⟨"/submit", "POST", "cors"⟩ World.empty).2).2.caches = []) ∧
    (isExternal "/v" = false ∧
      matchRequest ⟨"/v", "GET", "no-cors"⟩ World.empty.caches = none ∧
      (fetchHandler (always (.resolved (some ⟨200, "basic", "v", ["*"]⟩))) ⟨"/v", "GET", "no-cors"⟩
        World.empty).1 = .fulfilled (some ⟨200, "basic", "v", ["*"]⟩) ∧
      (runDeferred ⟨CACHE_NAME, ⟨"/v", "GET", "no-cors"⟩, ⟨200, "basic", "v", ["*"]⟩⟩
        (fetchHandler (always (.resolved (some ⟨200, "basic", "v", ["*"]⟩)))
          ⟨"/v", "GET", "no-cors"⟩ World.empty).2).1 = .rejected "TypeError" ∧
      entriesOf CACHE_NAME
        (runDeferred ⟨CACHE_NAME, ⟨"/v", "GET", "no-cors"⟩, ⟨200, "basic", "v", ["*"]⟩⟩
          (fetchHandler (always (.resolved (some ⟨200, "basic", "v", ["*"]⟩)))
            ⟨"/v", "GET", "no-cors"⟩ World.empty).2).2.caches = []) := by
  decide

/-- C6, amended. For a GET request that is not external and not cached, when
the network fetch fulfils with a response of status 200 and type `basic`
whose `Vary` header does not hold `*`, the handler fulfils with that response,
leaves the cache storage as it was and starts one write of the response under
the request into the bucket `CACHE_NAME`. That write fulfils, and once it has
run the bucket `CACHE_NAME` holds the network response under the request URL,
every other key of that bucket reads as before, and every other bucket is as
before. -/
theorem fetch_populates_cache (net : Network) (request : Request) (w : World) (r : Response)
    (hget : request.method = "GET")
    (hext : isExternal request.url = false)
    (hmiss : matchRequest request w.caches = none)
    (hnet : net request.url = .resolved (some r))
    (hstatus : r.status = 200) (htype : r.type = "basic") (hvary : "*" ∉ r.vary) :
    fetchHandler net request w =
        (.fulfilled (some r),
          { w with
            trace := w.trace ++ [Effect.fetch request.url]
            pending := w.pending ++ [⟨CACHE_NAME, request, r⟩] }) ∧
      (runDeferred ⟨CACHE_NAME, request, r⟩ (fetchHandler net request w).2).1 = .fulfilled () ∧
      matchEntries request.url (entriesOf CACHE_NAME
        (runDeferred ⟨CACHE_NAME, request, r⟩ (fetchHandler net request w).2).2.caches)
          = some r ∧
      (∀ k, k ≠ request.url →
        matchEntries k (entriesOf CACHE_NAME
          (runDeferred ⟨CACHE_NAME, request, r⟩ (fetchHandler net request w).2).2.caches)
            = matchEntries k (entriesOf CACHE_NAME w.caches)) ∧
      (∀ name, name ≠ CACHE_NAME →
        entriesOf name
          (runDeferred ⟨CACHE_NAME, request, r⟩ (fetchHandler net request w).2).2.caches
            = entriesOf name w.caches) ∧
      (runDeferred ⟨CACHE_NAME, request, r⟩ (fetchHandler net request w).2).2.caches.filter
          (fun b => b.name != CACHE_NAME)
        = w.caches.filter (fun b => b.name != CACHE_NAME) := by
  have hmissUrl : matchBuckets request.url w.caches = none := by
    simpa [matchRequest, hget] using hmiss
  have h : fetchHandler net request w =
      (.fulfilled (some r),
        { w with
          trace := w.trace ++ [Effect.fetch request.url]
          pending := w.pending ++ [⟨CACHE_NAME, request, r⟩] }) := by
    simp [fetchHandler, fetchHandlerWith, hext, Task.andThen, Task.orElse, cachesMatch, hmiss,
      fetchDuring, hnet, Task.resolve, hstatus, htype, defer]
  have hput : ¬ (request.method ≠ "GET" ∨ r.status = 206 ∨ "*" ∈ r.vary) := by
    simp [hget, hstatus, hvary]
  have hrun : runDeferred ⟨CACHE_NAME, request, r⟩ (fetchHandler net request w).2
      = (.fulfilled (),
          { w with
            caches := setEntries CACHE_NAME (putEntry request.url r)
              (ensureBucket CACHE_NAME w.caches)
            trace := w.trace ++ [Effect.fetch request.url]
            pending := w.pending ++ [⟨CACHE_NAME, request, r⟩] }) := by
    rw [h]
    simp only [runDeferred, Task.andThen, cachesOpen, cachePut, if_neg hput]
  have he : entriesOf CACHE_NAME
      (setEntries CACHE_NAME (putEntry request.url r) (ensureBucket CACHE_NAME w.caches))
      = entriesOf CACHE_NAME w.caches ++ [(request.url, r)] := by
    rw [entriesOf_setEntries_self _ _ _ (any_ensureBucket _ _), entriesOf_ensureBucket,
      putEntry_of_miss _ _ _ (matchEntries_entriesOf_none _ _ _ hmissUrl)]
  rw [hrun]
  refine ⟨h, rfl, ?_, ?_, ?_, ?_⟩
  · simp only [he]
    exact matchEntries_append_self _ _ _ (matchEntries_entriesOf_none _ _ _ hmissUrl)
  · intro k hk
    simp only [he]
    exact matchEntries_append_other _ _ _ _ hk
  · intro name hname
    simp only [entriesOf_setEntries_ne _ _ _ _ hname, entriesOf_ensureBucket]
  · simp only [filter_setEntries_ne, filter_ensureBucket_ne]

/-- Instance of the amended C6: a GET of `/c.js`, uncached, answered 200 basic. -/
theorem fetch_populates_cache_witness :
    fetchHandler (always (.resolved (some (okResponse "js")))) ⟨"/c.js", "GET", "no-cors"⟩
        cachedIndex =
        (.fulfilled (some (okResponse "js")),
          { cachedIndex with
            trace := cachedIndex.trace ++ [Effect.fetch "/c.js"]
            pending := cachedIndex.pending
              ++ [⟨CACHE_NAME, ⟨"/c.js", "GET", "no-cors"⟩, okResponse "js"⟩] }) ∧
      matchEntries "/c.js" (entriesOf CACHE_NAME
        (runDeferred ⟨CACHE_NAME, ⟨"/c.js", "GET", "no-cors"⟩, okResponse "js"⟩
          (fetchHandler (always (.resolved (some (okResponse "js")))) ⟨"/c.js", "GET", "no-cors"⟩
            cachedIndex).2).2.caches) = some (okResponse "js") :=
  have h := fetch_populates_cache (always (.resolved (some (okResponse "js"))))
    ⟨"/c.js", "GET", "no-cors"⟩ cachedIndex (okResponse "js")
    (by decide) (by decide) (by decide) (by decide) (by decide) (by decide) (by decide)
  ⟨h.1, h.2.2.1⟩

/-! ## Activate handler: theorems -/

theorem reapOne_run (cache : String) (w : World) :
    (reapOne cache w).1 = .fulfilled () ∧
      (reapOne cache w).2.caches
        = w.caches.filter (fun b => decide (b.name = CACHE_NAME) || (b.name != cache)) ∧
      (reapOne cache w).2.pending = w.pending := by
  unfold reapOne
  by_cases h : cache = CACHE_NAME
  · subst h
    simp only [ne_eq, not_true_eq_false, if_false, Task.resolve, true_and]
    refine ⟨?_, trivial⟩
    symm
    rw [List.filter_eq_self]
    intro b _
    by_cases hb : b.name = CACHE_NAME <;> simp [hb]
  · simp only [ne_eq, h, not_false_eq_true, if_true, Task.andThen, consoleLog, cachesDelete,
      Task.resolve, true_and, and_true]
    apply List.filter_congr
    intro b _
    by_cases hb : b.name = CACHE_NAME
    · have : b.name ≠ cache := by rw [hb]; exact Ne.symm h
      simp [hb, Ne.symm h]
    · simp [hb]

theorem promiseAll_reap (names : List String) (w : World) :
    (promiseAll (names.map reapOne) w).1 = .fulfilled () ∧
      (promiseAll (names.map reapOne) w).2.caches
        = w.caches.filter (fun b => decide (b.name = CACHE_NAME) || decide (b.name ∉ names)) ∧
      (promiseAll (names.map reapOne) w).2.pending = w.pending := by
  induction names generalizing w with
  | nil => simp [promiseAll, Task.resolve]
  | cons n rest ih =>
    obtain ⟨h1, h2, h3⟩ := reapOne_run n w
    obtain ⟨i1, i2, i3⟩ := ih (reapOne n w).2
    have hstep : promiseAll ((n :: rest).map reapOne) w
        = promiseAll (rest.map reapOne) (reapOne n w).2 := by
      simp only [List.map_cons, promiseAll, Task.andThen]
      generalize reapOne n w = out at h1
      obtain ⟨s, w1⟩ := out
      simp only at h1
      subst h1
      rfl
    rw [hstep]
    refine ⟨i1, ?_, by rw [i3, h3]⟩
    rw [i2, h2, List.filter_filter]
    apply List.filter_congr
    intro b _
    by_cases hb : b.name = CACHE_NAME
    · simp [hb]
    · by_cases hn : b.name = n
      · subst hn
        simp [hb]
      · simp [hb, hn]

/-- C3. The activate handler fulfils, and the bucket list after it is exactly
the prior list filtered to the buckets named `CACHE_NAME`: every bucket with
another name is gone, and a bucket named `CACHE_NAME` is kept with its entries
unchanged. -/
theorem activate_keeps_current_only (w : World) :
    (activate w).1 = .fulfilled () ∧
      (activate w).2.caches = w.caches.filter (fun b => decide (b.name = CACHE_NAME)) ∧
      (∀ b ∈ (activate w).2.caches, b.name = CACHE_NAME) ∧
      entriesOf CACHE_NAME (activate w).2.caches = entriesOf CACHE_NAME w.caches := by
  obtain ⟨h1, h2, _⟩ := promiseAll_reap (w.caches.map (fun b => b.name)) w
  have hrun : activate w
      = clientsClaim (promiseAll ((w.caches.map (fun b => b.name)).map reapOne) w).2 := by
    simp only [activate, Task.andThen, cachesKeys]
    generalize promiseAll ((w.caches.map (fun b => b.name)).map reapOne) w = out at h1
    obtain ⟨s, w1⟩ := out
    simp only at h1
    subst h1
    rfl
  have hc : (activate w).2.caches = w.caches.filter (fun b => decide (b.name = CACHE_NAME)) := by
    rw [hrun]
    simp only [clientsClaim]
    rw [h2]
    apply List.filter_congr
    intro b hb
    have : b.name ∈ w.caches.map (fun b => b.name) := List.mem_map_of_mem _ hb
    simp only [this, not_true_eq_false, decide_False, Bool.or_false]
  refine ⟨by rw [hrun]; rfl, hc, ?_, ?_⟩
  · intro b hb
    rw [hc] at hb
    simpa using (List.mem_filter.mp hb).2
  · rw [hc]
    generalize w.caches = bs
    induction bs with
    | nil => rfl
    | cons b rest ih =>
      by_cases hb : b.name = CACHE_NAME
      · simp [List.filter_cons, hb, entriesOf]
      · simp [List.filter_cons, hb, entriesOf, ih]


/-! ## Install handler: theorems -/

theorem cacheAddAll_run (net : Network) (cache : String) (urls : List String) (w : World) :
    ∃ failure : List Effect,
      (cacheAddAll net cache urls).orElse
          (fun error => consoleLog ("Failed to cache some assets: " ++ error)) w
        = (.fulfilled (),
            { caches :=
                match (fetchAll net urls).bind (fun ops => batchPut ops [] (entriesOf cache w.caches)) with
                | some es => setEntries cache (fun _ => es) w.caches
                | none => w.caches
              trace := w.trace ++ urls.map Effect.fetch ++ failure
              pending := w.pending }) ∧
      Effect.skipWaiting ∉ failure := by
  cases hf : fetchAll net urls with
  | none =>
    exact ⟨[Effect.log ("Failed to cache some assets: " ++ "TypeError")],
      by simp [Task.orElse, cacheAddAll, hf, consoleLog], by simp⟩
  | some ops =>
    cases hb : batchPut ops [] (entriesOf cache w.caches) with
    | none =>
      exact ⟨[Effect.log ("Failed to cache some assets: " ++ "InvalidStateError")],
        by simp [Task.orElse, cacheAddAll, hf, hb, consoleLog], by simp⟩
    | some es =>
      exact ⟨[], by simp [Task.orElse, cacheAddAll, hf, hb], by simp⟩

theorem installWith_run (manifest : List String) (net : Network) (w : World) :
    ∃ failure : List Effect,
      installWith manifest net w
        = (.fulfilled (),
            { caches :=
                match (fetchAll net manifest).bind
                  (fun ops => batchPut ops [] (entriesOf CACHE_NAME (ensureBucket CACHE_NAME w.caches))) with
                | some es => setEntries CACHE_NAME (fun _ => es) (ensureBucket CACHE_NAME w.caches)
                | none => ensureBucket CACHE_NAME w.caches
              trace := w.trace ++ [Effect.log "Service Worker: Caching files"]
                ++ manifest.map Effect.fetch ++ failure ++ [Effect.skipWaiting]
              pending := w.pending }) ∧
      Effect.skipWaiting ∉ failure := by
  obtain ⟨failure, hrun, hfail⟩ := cacheAddAll_run net CACHE_NAME manifest
    { caches := ensureBucket CACHE_NAME w.caches
      trace := w.trace ++ [Effect.log "Service Worker: Caching files"]
      pending := w.pending }
  refine ⟨failure, ?_, hfail⟩
  simp only [installWith, Task.andThen, cachesOpen, consoleLog]
  rw [hrun]
  rfl

/-- C2. For every manifest, every network and every starting world, the
promise of the install handler fulfils (it never rejects), and its effects are,
in order: the log line, one fetch per manifest URL, at most a failure log, and
then `skipWaiting`, which is called once and last. The cache storage is the
one the caching attempt left. -/
theorem install_completes (manifest : List String) (net : Network) (w : World) :
    (installWith manifest net w).1 = .fulfilled () ∧
      ∃ before : List Effect,
        (installWith manifest net w).2.trace = w.trace ++ before ++ [Effect.skipWaiting] ∧
        Effect.skipWaiting ∉ before ∧
        (∀ u ∈ manifest, Effect.fetch u ∈ before) ∧
        ((installWith manifest net w).2.trace.count Effect.skipWaiting
          = w.trace.count Effect.skipWaiting + 1) := by
  obtain ⟨failure, hrun, hfail⟩ := installWith_run manifest net w
  rw [hrun]
  refine ⟨rfl, [Effect.log "Service Worker: Caching files"] ++ manifest.map Effect.fetch ++ failure,
    by simp, ?_, ?_, ?_⟩
  · simp [hfail]
  · intro u hu
    simp only [List.mem_append, List.mem_map]
    exact Or.inl (Or.inr ⟨u, hu, rfl⟩)
  · have hmap : (manifest.map Effect.fetch).count Effect.skipWaiting = 0 :=
      List.count_eq_zero.mpr (by simp)
    have hfc : failure.count Effect.skipWaiting = 0 := List.count_eq_zero.mpr hfail
    simp [List.count_append, hmap, hfc, List.count_cons]


theorem fetchAll_eq (net : Network) (urls : List String) :
    fetchAll net urls
      = if ∀ u ∈ urls, (acceptable (net u)).isSome = true then some (fetched net urls)
        else none := by
  induction urls with
  | nil => simp [fetchAll, fetched]
  | cons u rest ih =>
    cases hu : acceptable (net u) with
    | none => simp [fetchAll, hu]
    | some r =>
      by_cases hrest : ∀ u ∈ rest, (acceptable (net u)).isSome = true
      · rw [if_pos hrest] at ih
        simp [fetchAll, hu, ih, fetched, List.filterMap_cons]
        exact hrest
      · rw [if_neg hrest] at ih
        simp [fetchAll, hu, ih, hrest]

theorem fetched_keys (net : Network) (urls : List String)
    (h : ∀ u ∈ urls, (acceptable (net u)).isSome = true) :
    (fetched net urls).map Prod.fst = urls := by
  induction urls with
  | nil => rfl
  | cons u rest ih =>
    have hu := h u (List.mem_cons_self _ _)
    obtain ⟨r, hr⟩ := Option.isSome_iff_exists.mp hu
    have hrest : ∀ u ∈ rest, (acceptable (net u)).isSome = true :=
      fun v hv => h v (List.mem_cons_of_mem _ hv)
    have ih1 := ih hrest
    simp only [fetched] at ih1 ⊢
    simp [List.filterMap_cons, hr, ih1]

theorem filter_key_ne (u : String) (es : List Entry) (h : u ∉ es.map Prod.fst) :
    es.filter (fun e => e.1 != u) = es := by
  rw [List.filter_eq_self]
  intro e he
  have : e.1 ≠ u := fun heq => h (heq ▸ List.mem_map_of_mem Prod.fst he)
  simpa using this

theorem batchPut_eq (ops : List Entry) (added : List String) (entries : List Entry) :
    batchPut ops added entries
      = if (ops.map Prod.fst).Nodup ∧ (∀ u ∈ ops.map Prod.fst, u ∉ added) then
          some (ops.foldl (fun es op => putEntry op.1 op.2 es) entries)
        else none := by
  induction ops generalizing added entries with
  | nil => simp [batchPut]
  | cons op rest ih =>
    obtain ⟨u, r⟩ := op
    simp only [batchPut, List.map_cons, List.nodup_cons, List.foldl_cons]
    by_cases hu : u ∈ added
    · have : ¬ ((u ∉ rest.map Prod.fst ∧ (rest.map Prod.fst).Nodup) ∧
          ∀ v ∈ u :: rest.map Prod.fst, v ∉ added) :=
        fun h => h.2 u (List.mem_cons_self _ _) hu
      rw [if_pos hu, if_neg this]
    · rw [if_neg hu, ih]
      by_cases hc : (rest.map Prod.fst).Nodup ∧ ∀ v ∈ rest.map Prod.fst, v ∉ u :: added
      · have : (u ∉ rest.map Prod.fst ∧ (rest.map Prod.fst).Nodup) ∧
            ∀ v ∈ u :: rest.map Prod.fst, v ∉ added := by
          refine ⟨⟨fun hmem => hc.2 u hmem (List.mem_cons_self _ _), hc.1⟩, ?_⟩
          intro v hv
          rcases List.mem_cons.mp hv with rfl | hv
          · exact hu
          · exact fun hva => hc.2 v hv (List.mem_cons_of_mem _ hva)
        rw [if_pos hc, if_pos this]
      · have : ¬ ((u ∉ rest.map Prod.fst ∧ (rest.map Prod.fst).Nodup) ∧
            ∀ v ∈ u :: rest.map Prod.fst, v ∉ added) := by
          intro h
          apply hc
          refine ⟨h.1.2, ?_⟩
          intro v hv hva
          rcases List.mem_cons.mp hva with rfl | hva
          · exact h.1.1 hv
          · exact h.2 v (List.mem_cons_of_mem _ hv) hva
        rw [if_neg hc, if_neg this]

theorem foldl_put_fresh (ops c : List Entry) (hnd : (ops.map Prod.fst).Nodup)
    (hdis : ∀ u ∈ ops.map Prod.fst, u ∉ c.map Prod.fst) :
    ops.foldl (fun es op => putEntry op.1 op.2 es) c = c ++ ops := by
  induction ops generalizing c with
  | nil => simp
  | cons op rest ih =>
    obtain ⟨u, r⟩ := op
    simp only [List.map_cons, List.nodup_cons] at hnd
    have hstep : putEntry u r c = c ++ [(u, r)] := by
      rw [putEntry, filter_key_ne u c (hdis u (by simp))]
    simp only [List.foldl_cons]
    rw [hstep, ih (c ++ [(u, r)]) hnd.2]
    · simp
    · intro v hv
      simp only [List.map_append, List.map_cons, List.map_nil, List.mem_append,
        List.mem_singleton, not_or]
      exact ⟨hdis v (by simp [hv]), fun hvu => hnd.1 (hvu ▸ hv)⟩

theorem foldl_put_again (ops c : List Entry) (hnd : (ops.map Prod.fst).Nodup)
    (hdis : ∀ u ∈ ops.map Prod.fst, u ∉ c.map Prod.fst) :
    ops.foldl (fun es op => putEntry op.1 op.2 es) (ops ++ c) = c ++ ops := by
  induction ops generalizing c with
  | nil => simp
  | cons op rest ih =>
    obtain ⟨u, r⟩ := op
    simp only [List.map_cons, List.nodup_cons] at hnd
    have hstep : putEntry u r ((u, r) :: rest ++ c) = rest ++ (c ++ [(u, r)]) := by
      have hrc : u ∉ (rest ++ c).map Prod.fst := by
        simp only [List.map_append, List.mem_append, not_or]
        exact ⟨hnd.1, hdis u (by simp)⟩
      simp only [putEntry, List.cons_append, List.filter_cons, bne_self_eq_false,
        Bool.false_eq_true, if_false]
      rw [filter_key_ne u (rest ++ c) hrc]
      simp
    simp only [List.foldl_cons]
    rw [hstep, ih (c ++ [(u, r)]) hnd.2]
    · simp
    · intro v hv
      simp only [List.map_append, List.map_cons, List.map_nil, List.mem_append,
        List.mem_singleton, not_or]
      exact ⟨hdis v (by simp [hv]), fun hvu => hnd.1 (hvu ▸ hv)⟩


theorem addAll_entries (net : Network) (manifest : List String) (entries : List Entry)
    (hentries : entries = [] ∨ entries = fetched net manifest) :
    (fetchAll net manifest).bind (fun ops => batchPut ops [] entries)
      = if (∀ u ∈ manifest, (acceptable (net u)).isSome = true) ∧ manifest.Nodup then
          some (fetched net manifest)
        else none := by
  rw [fetchAll_eq]
  by_cases hall : ∀ u ∈ manifest, (acceptable (net u)).isSome = true
  · have hkeys := fetched_keys net manifest hall
    rw [if_pos hall, Option.some_bind, batchPut_eq, hkeys]
    by_cases hnd : manifest.Nodup
    · have hnd1 : ((fetched net manifest).map Prod.fst).Nodup := by rw [hkeys]; exact hnd
      rw [if_pos ⟨hnd, by simp⟩, if_pos ⟨hall, hnd⟩]
      rcases hentries with h | h
      · rw [h, foldl_put_fresh _ _ hnd1 (by simp)]
        rfl
      · rw [h]
        have := foldl_put_again (fetched net manifest) [] hnd1 (by simp)
        simp only [List.append_nil, List.nil_append] at this
        rw [this]
    · rw [if_neg (fun h => hnd h.1), if_neg (fun h => hnd h.2)]
  · rw [if_neg hall, if_neg (fun h => hall h.1)]
    rfl

theorem installWith_caches (manifest : List String) (net : Network) (w : World)
    (hentries : entriesOf CACHE_NAME (ensureBucket CACHE_NAME w.caches) = [] ∨
      entriesOf CACHE_NAME (ensureBucket CACHE_NAME w.caches) = fetched net manifest) :
    (installWith manifest net w).2.caches
      = if (∀ u ∈ manifest, (acceptable (net u)).isSome = true) ∧ manifest.Nodup then
          setEntries CACHE_NAME (fun _ => fetched net manifest) (ensureBucket CACHE_NAME w.caches)
        else ensureBucket CACHE_NAME w.caches := by
  obtain ⟨failure, hrun, _⟩ := installWith_run manifest net w
  rw [hrun]
  simp only
  rw [addAll_entries net manifest _ hentries]
  by_cases hc : (∀ u ∈ manifest, (acceptable (net u)).isSome = true) ∧ manifest.Nodup
  · simp only [if_pos hc]
  · simp only [if_neg hc]

theorem any_setEntries (name : String) (f : List Entry → List Entry) (bs : List Bucket) :
    (setEntries name f bs).any (fun b => b.name == name) = bs.any (fun b => b.name == name) := by
  induction bs with
  | nil => rfl
  | cons b rest ih =>
    simp only [setEntries, List.map_cons, List.any_cons] at ih ⊢
    rw [ih]
    by_cases hb : b.name = name <;> simp [hb]

theorem ensureBucket_of_any (name : String) (bs : List Bucket)
    (h : bs.any (fun b => b.name == name) = true) : ensureBucket name bs = bs := by
  simp only [ensureBucket, h, if_true]

theorem setEntries_const_twice (name : String) (es es1 : List Entry) (bs : List Bucket) :
    setEntries name (fun _ => es) (setEntries name (fun _ => es1) bs)
      = setEntries name (fun _ => es) bs := by
  induction bs with
  | nil => rfl
  | cons b rest ih =>
    simp only [setEntries, List.map_cons] at ih ⊢
    rw [ih]
    by_cases hb : b.name = name <;> simp [hb]

theorem setEntries_nil_of_empty (name : String) (bs : List Bucket)
    (h : ∀ b ∈ bs, b.name = name → b.entries = []) :
    setEntries name (fun _ => []) bs = bs := by
  induction bs with
  | nil => rfl
  | cons b rest ih =>
    simp only [setEntries, List.map_cons] at ih ⊢
    rw [ih (fun c hc => h c (List.mem_cons_of_mem _ hc))]
    by_cases hb : b.name = name
    · have he := h b (List.mem_cons_self _ _) hb
      cases b
      simp_all
    · simp [hb]

theorem entriesOf_nil_of_empty (name : String) (bs : List Bucket)
    (h : ∀ b ∈ bs, b.name = name → b.entries = []) : entriesOf name bs = [] := by
  induction bs with
  | nil => rfl
  | cons b rest ih =>
    by_cases hb : b.name = name
    · simp [entriesOf, hb, h b (List.mem_cons_self _ _) hb]
    · simp [entriesOf, hb, ih (fun c hc => h c (List.mem_cons_of_mem _ hc))]

theorem empty_ensureBucket (name : String) (bs : List Bucket)
    (h : ∀ b ∈ bs, b.name = name → b.entries = []) :
    ∀ b ∈ ensureBucket name bs, b.name = name → b.entries = [] := by
  intro b hb hn
  unfold ensureBucket at hb
  split at hb
  · exact h b hb hn
  · rcases List.mem_append.mp hb with hb | hb
    · exact h b hb hn
    · simp only [List.mem_singleton] at hb
      rw [hb]

/-- One run of the install handler from the starting cache storage, or from
the storage a run has already produced, produces the same storage. -/
theorem installWith_fixed (manifest : List String) (net : Network) (bs : List Bucket) (w : World)
    (hempty : ∀ b ∈ bs, b.name = CACHE_NAME → b.entries = [])
    (hw : w.caches = bs ∨
      w.caches = setEntries CACHE_NAME
        (fun _ => if (∀ u ∈ manifest, (acceptable (net u)).isSome = true) ∧ manifest.Nodup then
          fetched net manifest else [])
        (ensureBucket CACHE_NAME bs)) :
    (installWith manifest net w).2.caches
      = setEntries CACHE_NAME
          (fun _ => if (∀ u ∈ manifest, (acceptable (net u)).isSome = true) ∧ manifest.Nodup then
            fetched net manifest else [])
          (ensureBucket CACHE_NAME bs) := by
  rcases hw with hw | hw
  · have he : entriesOf CACHE_NAME (ensureBucket CACHE_NAME w.caches) = [] := by
      rw [hw, entriesOf_ensureBucket]
      exact entriesOf_nil_of_empty _ _ hempty
    rw [installWith_caches manifest net w (Or.inl he), hw]
    by_cases hc : (∀ u ∈ manifest, (acceptable (net u)).isSome = true) ∧ manifest.Nodup
    · simp only [if_pos hc]
    · simp only [if_neg hc]
      exact (setEntries_nil_of_empty _ _ (empty_ensureBucket _ _ hempty)).symm
  · have hany : w.caches.any (fun b => b.name == CACHE_NAME) = true := by
      rw [hw, any_setEntries]
      exact any_ensureBucket _ _
    have hens : ensureBucket CACHE_NAME w.caches = w.caches := ensureBucket_of_any _ _ hany
    have he : entriesOf CACHE_NAME w.caches
        = if (∀ u ∈ manifest, (acceptable (net u)).isSome = true) ∧ manifest.Nodup then
            fetched net manifest else [] := by
      rw [hw, entriesOf_setEntries_self _ _ _ (any_ensureBucket _ _)]
    have hentries : entriesOf CACHE_NAME (ensureBucket CACHE_NAME w.caches) = [] ∨
        entriesOf CACHE_NAME (ensureBucket CACHE_NAME w.caches) = fetched net manifest := by
      rw [hens, he]
      by_cases hc : (∀ u ∈ manifest, (acceptable (net u)).isSome = true) ∧ manifest.Nodup
      · exact Or.inr (by simp only [if_pos hc])
      · exact Or.inl (by simp only [if_neg hc])
    rw [installWith_caches manifest net w hentries, hens, hw]
    by_cases hc : (∀ u ∈ manifest, (acceptable (net u)).isSome = true) ∧ manifest.Nodup
    · simp only [if_pos hc]
      exact setEntries_const_twice _ _ _ _
    · simp only [if_neg hc]

/-- C1 as stated fails. With manifest `/a`, `/b` where only `/a` can be
fetched, one entry per fetched URL would be the single entry for `/a`, but the
bucket `CACHE_NAME` is empty after one install and after two. It is also empty
when the only manifest URL is answered with status 206, when it is answered
with `Vary: *`, and when a URL that can be fetched is listed twice. -/
theorem install_one_entry_per_fetched_counterexample :
    (onlyA "/a" = .resolved (some (okResponse "A")) ∧ onlyA "/b" = .rejected ∧
      entriesOf CACHE_NAME (installTimes ["/a", "/b"] onlyA 1 World.empty).caches = [] ∧
      entriesOf CACHE_NAME (installTimes ["/a", "/b"] onlyA 2 World.empty).caches = [] ∧
      entriesOf CACHE_NAME (installTimes ["/a", "/b"] onlyA 1 World.empty).caches
        ≠ [("/a", okResponse "A")]) ∧
    entriesOf CACHE_NAME
      (installTimes ["/a"] (always (.resolved (some ⟨206, "basic", "part", []⟩))) 1
        World.empty).caches = [] ∧
    entriesOf CACHE_NAME
      (installTimes ["/a"] (always (.resolved (some ⟨200, "basic", "A", ["*"]⟩))) 1
        World.empty).caches = [] ∧
    entriesOf CACHE_NAME (installTimes ["/a", "/a"] onlyA 1 World.empty).caches = [] := by
  decide

/-- C1, amended. For every manifest and every network, starting from a cache
storage whose bucket `CACHE_NAME` is absent or has no entry, after one or more
runs of the install handler the bucket `CACHE_NAME` exists and holds one entry
per manifest URL, in manifest order, each with the fetched response, when
every manifest URL was fetched with a response `cache.addAll` accepts
(fulfilled, status 200-299 other than 206, no `Vary: *`) and no URL is listed
twice, and it holds no entry otherwise; the other buckets are as before. -/
theorem install_all_or_nothing (manifest : List String) (net : Network) (w : World) (n : Nat)
    (hempty : ∀ b ∈ w.caches, b.name = CACHE_NAME → b.entries = []) :
    (installTimes manifest net (n + 1) w).caches
        = setEntries CACHE_NAME
            (fun _ => if (∀ u ∈ manifest, (acceptable (net u)).isSome = true) ∧ manifest.Nodup then
              fetched net manifest else [])
            (ensureBucket CACHE_NAME w.caches) ∧
      (installTimes manifest net (n + 1) w).caches.any (fun b => b.name == CACHE_NAME) = true ∧
      entriesOf CACHE_NAME (installTimes manifest net (n + 1) w).caches
        = (if (∀ u ∈ manifest, (acceptable (net u)).isSome = true) ∧ manifest.Nodup then
            fetched net manifest else []) ∧
      (installTimes manifest net (n + 1) w).caches.filter (fun b => b.name != CACHE_NAME)
        = w.caches.filter (fun b => b.name != CACHE_NAME) ∧
      ((∀ u ∈ manifest, (acceptable (net u)).isSome = true) →
        (fetched net manifest).map Prod.fst = manifest) := by
  have key : ∀ (k : Nat) (v : World),
      (v.caches = w.caches ∨
        v.caches = setEntries CACHE_NAME
          (fun _ => if (∀ u ∈ manifest, (acceptable (net u)).isSome = true) ∧ manifest.Nodup then
            fetched net manifest else [])
          (ensureBucket CACHE_NAME w.caches)) →
      (installTimes manifest net (k + 1) v).caches
        = setEntries CACHE_NAME
            (fun _ => if (∀ u ∈ manifest, (acceptable (net u)).isSome = true) ∧ manifest.Nodup then
              fetched net manifest else [])
            (ensureBucket CACHE_NAME w.caches) := by
    intro k
    induction k with
    | zero =>
      intro v hv
      exact installWith_fixed manifest net w.caches v hempty hv
    | succ k ih =>
      intro v hv
      exact ih _ (Or.inr (installWith_fixed manifest net w.caches v hempty hv))
  have hc := key n w (Or.inl rfl)
  refine ⟨hc, ?_, ?_, ?_, fetched_keys net manifest⟩
  · rw [hc, any_setEntries]
    exact any_ensureBucket _ _
  · rw [hc, entriesOf_setEntries_self _ _ _ (any_ensureBucket _ _)]
  · rw [hc, filter_setEntries_ne, filter_ensureBucket_ne]

/-- Instances of the amended C1, installing twice over an old bucket left by
the previous version: with `/a` and `/b` both fetched the current bucket holds
both; with only `/a` fetched it holds nothing; the old bucket is untouched. -/
theorem install_all_or_nothing_witness :
    (installTimes ["/a", "/b"] (always (.resolved (some (okResponse "A")))) 2 cachedFont).caches
        = cachedFont.caches
          ++ [⟨CACHE_NAME, [("/a", okResponse "A"), ("/b", okResponse "A")]⟩] ∧
      (installTimes ["/a", "/b"] onlyA 2 cachedFont).caches
        = cachedFont.caches ++ [⟨CACHE_NAME, []⟩] :=
  ⟨(install_all_or_nothing ["/a", "/b"] (always (.resolved (some (okResponse "A")))) cachedFont 1
      (by decide)).1.trans (by decide),
    (install_all_or_nothing ["/a", "/b"] onlyA cachedFont 1 (by decide)).1.trans (by decide)⟩

/-! ## Push handler: theorems -/

/-- C10 as stated fails: a push whose payload is present with empty text gets
the default body, not the payload text. -/
theorem push_empty_payload_counterexample :
    (pushOptions 0 (some "")).body = "New content available" ∧
      (pushOptions 0 (some "")).body ≠ "" := by
  decide

/-- C10, amended. The push handler shows one notification titled
`Sonus Concensus`. Its body is the payload text when a payload is present and
its text is not empty, and the default string `New content available` when the
payload is absent or its text is empty; icon, badge, vibration pattern and the
two actions `explore` and `close`, in that order, are the same for every push
event. -/
theorem push_notification (now : Nat) (data : Option String) (w : World) :
    push now data w =
        (.fulfilled (),
          { w with
            trace := w.trace ++ [Effect.showNotification "Sonus Concensus" (pushOptions now data)] }) ∧
      (∀ text, data = some text → text ≠ "" → (pushOptions now data).body = text) ∧
      (data = none ∨ data = some "" → (pushOptions now data).body = "New content available") ∧
      (pushOptions now data).icon = "/icons/icon-192x192.png" ∧
      (pushOptions now data).badge = "/icons/icon-72x72.png" ∧
      (pushOptions now data).vibrate = [100, 50, 100] ∧
      (pushOptions now data).actions =
        [ ⟨"explore", "Explore", "/icons/icon-72x72.png"⟩,
          ⟨"close", "Close", "/icons/icon-72x72.png"⟩ ] ∧
      (pushOptions now data).actions.map (fun a => a.action) = ["explore", "close"] := by
  refine ⟨rfl, ?_, ?_, rfl, rfl, rfl, rfl, rfl⟩
  · intro text hd hne
    subst hd
    simp [pushOptions, textOrDefault, hne]
  · intro hd
    rcases hd with hd | hd <;> subst hd <;> simp [pushOptions, textOrDefault]

end ServiceWorker
